import Mathlib

/-
Verification of the paginated streaming engine of the manifold-markets
client library (src/streams.rs, src/error.rs).

The engine `stream_paginated` is a `try_unfold` over an optional cursor:
each step clones the base query parameters (appending `("before", cursor)`
when a cursor is held), performs one HTTP GET, requires the JSON body to be
an array, ends cleanly on an empty array, extracts the string `id` of the
last raw element as the next cursor, decodes every element into `T`
(failing the whole page on the first bad element), and emits the decoded
items in order before the next fetch.  Any error is yielded once and ends
the stream (`try_unfold` semantics).

The embedding below is a fuel-indexed trace semantics: a run is the list
of events (page requests with their query parameters, and yielded items)
produced by at most `fuel` page fetches, together with a flag telling
whether the stream terminated within that fuel.  The transport is a
function from call index, path and query parameters to either a JSON body
or a transport failure (network error, non-2xx status and unparseable
body all surface as `reqwest::Error`, i.e. `ManifoldError.HttpError`).
The caller-supplied serde decoder of `T` is a parameter
`decode : Json → Except String T`; its `String` payload stands for
`serde_json::Error`, which carries a message but not the raw JSON value.
-/

namespace ManifoldStream

/-- JSON values, mirroring `serde_json::Value`.  Numbers are collapsed to
`Int`: no claim depends on numeric semantics.  Objects are association
lists of fields. -/
inductive Json : Type where
  | null : Json
  | bool : Bool → Json
  | num : Int → Json
  | str : String → Json
  | arr : List Json → Json
  | obj : List (String × Json) → Json

/-- Read-indexing a JSON value by a key, mirroring
`impl Index<&str> for serde_json::Value` (used by `last["id"]`): on an
object it returns the field's value, and it returns `Null` when the key is
absent or the value is not an object; it never panics. -/
def Json.index (j : Json) (key : String) : Json :=
  match j with
  | .obj fields =>
    match fields.lookup key with
    | some v => v
    | none => .null
  | _ => .null

/-- Mirrors `serde_json::Value::as_str`. -/
def Json.as_str : Json → Option String
  | .str s => some s
  | _ => none

/-- Mirrors `serde_json::Value::as_array`. -/
def Json.as_array : Json → Option (List Json)
  | .arr xs => some xs
  | _ => none

/-- The library's error type (src/error.rs).  `ParseError` wraps a
`serde_json::Error` (a message, no raw value); `HttpError` wraps a
`reqwest::Error`; `SchemaError` carries a message and an optional raw JSON
value. -/
inductive ManifoldError : Type where
  | ParseError (e : String) : ManifoldError
  | HttpError (e : String) : ManifoldError
  | SchemaError (msg : String) (v : Option Json) : ManifoldError
  | Other (s : String) : ManifoldError

/-- Outcome of one transport call: a JSON body on success, or a failure
covering network errors, non-2xx statuses and unparseable bodies (the
three `?` sites `send`, `error_for_status`, `json::<Value>` in the
source, all converted into `ManifoldError.HttpError`). -/
inductive TransportResult : Type where
  | success (body : Json) : TransportResult
  | failure (e : String) : TransportResult

/-- A transport behaviour: response as a function of the call index, the
request path and the query parameters. -/
abbrev Transport : Type := Nat → String → List (String × String) → TransportResult

/-- Query parameters of one page request: the base parameters, plus the
cursor appended when one is held (`params.push(("before", before))` on a
clone of the base vector). -/
def requestParams (base : List (String × String)) : Option String → List (String × String)
  | none => base
  | some b => base ++ [("before", b)]

/-- Decoding of all raw elements of a page, in order, mirroring
`result.into_iter().map(|v| serde_json::from_value(v.clone())).try_collect::<Vec<T>>()`:
the first element that fails to decode aborts the whole page with its
error; on success the decoded items are returned in the original order. -/
def decodeAll {T : Type} (decode : Json → Except String T) :
    List Json → Except String (List T)
  | [] => .ok []
  | j :: rest =>
    match decode j with
    | .error e => .error e
    | .ok t =>
      match decodeAll decode rest with
      | .error e => .error e
      | .ok ts => .ok (t :: ts)

/-- One page-processing step of `stream_paginated`, after the transport
returned a JSON body: require an array, end cleanly when it is empty,
extract the last raw element's string `id`, then decode every element
(`try_collect`: the first failure aborts the page).  Returns `none` for
clean termination, or the decoded items together with the next cursor. -/
def pageStep {T : Type} (decode : Json → Except String T) (body : Json) :
    Except ManifoldError (Option (List T × String)) :=
  match body.as_array with
  | none => .error (.SchemaError "Streaming response returned not an array?" (some body))
  | some xs =>
    match xs.getLast? with
    | none => .ok none
    | some last =>
      match (last.index "id").as_str with
      | none => .error (.SchemaError "Not a string id?" (some (last.index "id")))
      | some lastId =>
        match decodeAll decode xs with
        | .error e => .error (.ParseError e)
        | .ok ts => .ok (some (ts, lastId))

/-- An observable event of a stream run: a page request with its query
parameters, or an item yielded to the consumer. -/
inductive Event (T : Type) : Type where
  | request (path : String) (params : List (String × String)) : Event T
  | yield (item : Except ManifoldError T) : Event T

/-- A bounded run of the stream: the events in order, and whether the
stream reached its end (clean termination or terminal error) within the
fuel. -/
structure Run (T : Type) : Type where
  events : List (Event T)
  finished : Bool

/-- The unfolding loop of `stream_paginated` from a given cursor state and
call index, performing at most `fuel` page fetches.  Each step issues one
request; a transport failure or a `pageStep` error yields that single
error and ends the stream (`try_unfold` ends after an `Err`); an empty
page ends the stream cleanly; otherwise all decoded items of the page are
yielded in order and the loop continues with the new cursor. -/
def runFrom {T : Type} (decode : Json → Except String T) (transport : Transport)
    (path : String) (base : List (String × String)) :
    Option String → Nat → Nat → Run T
  | _, _, 0 => ⟨[], false⟩
  | cursor, idx, fuel + 1 =>
    let ps := requestParams base cursor
    match transport idx path ps with
    | .failure e => ⟨[.request path ps, .yield (.error (.HttpError e))], true⟩
    | .success body =>
      match pageStep decode body with
      | .error e => ⟨[.request path ps, .yield (.error e)], true⟩
      | .ok none => ⟨[.request path ps], true⟩
      | .ok (some (ts, lastId)) =>
        let rest := runFrom decode transport path base (some lastId) (idx + 1) fuel
        ⟨.request path ps :: (ts.map (fun t => .yield (.ok t)) ++ rest.events),
         rest.finished⟩

/-- The stream produced by `ManifoldClient::stream_paginated`, observed
for at most `fuel` page fetches: the unfold starts with no cursor
(`try_unfold(None, ...)`) at call index 0. -/
def stream_paginated {T : Type} (decode : Json → Except String T) (transport : Transport)
    (path : String) (base : List (String × String)) (fuel : Nat) : Run T :=
  runFrom decode transport path base none 0 fuel

/-- The item carried by an event, when it is a yield. -/
def yieldedItem {T : Type} : Event T → Option (Except ManifoldError T)
  | .yield r => some r
  | _ => none

/-- The query parameters carried by an event, when it is a request. -/
def requestedParams {T : Type} : Event T → Option (List (String × String))
  | .request _ ps => some ps
  | _ => none

/-- The items a consumer sees, in order. -/
def Run.items {T : Type} (r : Run T) : List (Except ManifoldError T) :=
  r.events.filterMap yieldedItem

/-- The query-parameter lists passed to the transport, in order. -/
def Run.requests {T : Type} (r : Run T) : List (List (String × String)) :=
  r.events.filterMap requestedParams

/-- The string `id` of the last element of a raw page, when present. -/
def lastIdOf (p : List Json) : Option String :=
  p.getLast?.bind fun last => (last.index "id").as_str

/-- The decoded items of a page when decoding succeeds (and `[]`
otherwise; only used under hypotheses that make decoding succeed). -/
def okDecoded {T : Type} (decode : Json → Except String T) (p : List Json) : List T :=
  ((decodeAll decode p).toOption).getD []

/-- The expected events of a sequence of well-formed, non-empty pages
served from a given cursor state: for each page, its request followed by
all its decoded items, the next page keyed by the previous page's last raw
`id`.  In particular every item of a page appears before the next page's
request. -/
def pagesEvents {T : Type} (decode : Json → Except String T) (path : String)
    (base : List (String × String)) : Option String → List (List Json) → List (Event T)
  | _, [] => []
  | cursor, p :: rest =>
    .request path (requestParams base cursor) ::
      ((okDecoded decode p).map (fun t => .yield (.ok t)) ++
        pagesEvents decode path base (lastIdOf p) rest)

/-- The cursor state after serving a sequence of pages. -/
def finalCursor : Option String → List (List Json) → Option String
  | c, [] => c
  | _, p :: rest => finalCursor (lastIdOf p) rest

/-- Decoding preserves the number of elements when it succeeds. -/
theorem decodeAll_length {T : Type} (decode : Json → Except String T) :
    ∀ (l : List Json) (ts : List T), decodeAll decode l = .ok ts → ts.length = l.length := by
  intro l
  induction l with
  | nil => intro ts h; simp [decodeAll] at h; simp [← h]
  | cons a l ih =>
    intro ts h
    simp only [decodeAll] at h
    cases ha : decode a with
    | error e => rw [ha] at h; exact absurd h (by simp)
    | ok t =>
      rw [ha] at h
      cases hl : decodeAll decode l with
      | error e => rw [hl] at h; exact absurd h (by simp)
      | ok ts' =>
        rw [hl] at h
        cases h
        simp [ih ts' hl]

/-- Decoding a concatenation succeeds when both parts do, yielding the
concatenated items. -/
theorem decodeAll_append {T : Type} (decode : Json → Except String T) :
    ∀ (l₁ l₂ : List Json) (a b : List T), decodeAll decode l₁ = .ok a →
      decodeAll decode l₂ = .ok b → decodeAll decode (l₁ ++ l₂) = .ok (a ++ b) := by
  intro l₁
  induction l₁ with
  | nil => intro l₂ a b ha hb; simp [decodeAll] at ha; simp [← ha, hb]
  | cons x l ih =>
    intro l₂ a b ha hb
    simp only [decodeAll] at ha
    cases hx : decode x with
    | error e => rw [hx] at ha; exact absurd ha (by simp)
    | ok t =>
      rw [hx] at ha
      cases hl : decodeAll decode l with
      | error e => rw [hl] at ha; exact absurd ha (by simp)
      | ok ts =>
        rw [hl] at ha
        cases ha
        simp [decodeAll, hx, ih l₂ ts b hl hb]

/-- When a well-decoding run of elements is followed by one that fails,
the whole page fails with the first failing element's error. -/
theorem decodeAll_append_error {T : Type} (decode : Json → Except String T) :
    ∀ (good : List Json) (gs : List T) (bad : Json) (e : String) (rest : List Json),
      decodeAll decode good = .ok gs → decode bad = .error e →
      decodeAll decode (good ++ bad :: rest) = .error e := by
  intro good
  induction good with
  | nil =>
    intro gs bad e rest _ hbad
    simp [decodeAll, hbad]
  | cons x l ih =>
    intro gs bad e rest hg hbad
    simp only [decodeAll] at hg
    cases hx : decode x with
    | error e' => rw [hx] at hg; exact absurd hg (by simp)
    | ok t =>
      rw [hx] at hg
      cases hl : decodeAll decode l with
      | error e' => rw [hl] at hg; exact absurd hg (by simp)
      | ok ts =>
        simp [decodeAll, hx, ih ts bad e rest hl hbad]

/-- A step whose transport call fails yields the single `HttpError` and
ends the stream. -/
theorem runFrom_step_failure {T : Type} (decode : Json → Except String T)
    (transport : Transport) (path : String) (base : List (String × String))
    (cursor : Option String) (idx fuel : Nat) (e : String)
    (htr : transport idx path (requestParams base cursor) = .failure e) :
    runFrom decode transport path base cursor idx (fuel + 1) =
      ⟨[.request path (requestParams base cursor),
        .yield (.error (.HttpError e))], true⟩ := by
  simp [runFrom, htr]

/-- A step whose body is not a JSON array yields the single "not an
array" `SchemaError`, carrying the whole body, and ends the stream. -/
theorem runFrom_step_notArray {T : Type} (decode : Json → Except String T)
    (transport : Transport) (path : String) (base : List (String × String))
    (cursor : Option String) (idx fuel : Nat) (body : Json)
    (htr : transport idx path (requestParams base cursor) = .success body)
    (harr : body.as_array = none) :
    runFrom decode transport path base cursor idx (fuel + 1) =
      ⟨[.request path (requestParams base cursor),
        .yield (.error (.SchemaError "Streaming response returned not an array?" (some body)))],
       true⟩ := by
  simp [runFrom, htr, pageStep, harr]

/-- A step whose body is the empty array ends the stream cleanly, with no
item yielded and no further request. -/
theorem runFrom_step_empty {T : Type} (decode : Json → Except String T)
    (transport : Transport) (path : String) (base : List (String × String))
    (cursor : Option String) (idx fuel : Nat)
    (htr : transport idx path (requestParams base cursor) = .success (.arr [])) :
    runFrom decode transport path base cursor idx (fuel + 1) =
      ⟨[.request path (requestParams base cursor)], true⟩ := by
  simp [runFrom, htr, pageStep, Json.as_array]

/-- A step on a non-empty page whose last raw element has no string `id`
yields the single "Not a string id?" `SchemaError`, carrying the indexed
value, and ends the stream — whatever the decoder would have done. -/
theorem runFrom_step_badId {T : Type} (decode : Json → Except String T)
    (transport : Transport) (path : String) (base : List (String × String))
    (cursor : Option String) (idx fuel : Nat) (p : List Json) (last : Json)
    (htr : transport idx path (requestParams base cursor) = .success (.arr p))
    (hlast : p.getLast? = some last)
    (hid : (last.index "id").as_str = none) :
    runFrom decode transport path base cursor idx (fuel + 1) =
      ⟨[.request path (requestParams base cursor),
        .yield (.error (.SchemaError "Not a string id?" (some (last.index "id"))))],
       true⟩ := by
  simp [runFrom, htr, pageStep, Json.as_array, hlast, hid]

/-- A step on a page with a valid cursor id but a failing element yields
the single `ParseError` carrying the decode error, and ends the stream. -/
theorem runFrom_step_decodeFail {T : Type} (decode : Json → Except String T)
    (transport : Transport) (path : String) (base : List (String × String))
    (cursor : Option String) (idx fuel : Nat) (p : List Json) (last : Json)
    (lid : String) (e : String)
    (htr : transport idx path (requestParams base cursor) = .success (.arr p))
    (hlast : p.getLast? = some last)
    (hid : (last.index "id").as_str = some lid)
    (hdec : decodeAll decode p = .error e) :
    runFrom decode transport path base cursor idx (fuel + 1) =
      ⟨[.request path (requestParams base cursor),
        .yield (.error (.ParseError e))], true⟩ := by
  simp [runFrom, htr, pageStep, Json.as_array, hlast, hid, hdec]

/-- A step on a fully well-formed page yields all its decoded items in
order and continues with the page's last raw `id` as the new cursor. -/
theorem runFrom_step_good {T : Type} (decode : Json → Except String T)
    (transport : Transport) (path : String) (base : List (String × String))
    (cursor : Option String) (idx fuel : Nat) (p : List Json) (last : Json)
    (lid : String) (ts : List T)
    (htr : transport idx path (requestParams base cursor) = .success (.arr p))
    (hlast : p.getLast? = some last)
    (hid : (last.index "id").as_str = some lid)
    (hdec : decodeAll decode p = .ok ts) :
    runFrom decode transport path base cursor idx (fuel + 1) =
      ⟨.request path (requestParams base cursor) ::
        (ts.map (fun t => .yield (.ok t)) ++
          (runFrom decode transport path base (some lid) (idx + 1) fuel).events),
       (runFrom decode transport path base (some lid) (idx + 1) fuel).finished⟩ := by
  simp [runFrom, htr, pageStep, Json.as_array, hlast, hid, hdec]

theorem runFrom_finished_stable {T : Type} (decode : Json → Except String T)
    (transport : Transport) (path : String) (base : List (String × String)) :
    ∀ (fuel : Nat) (cursor : Option String) (idx extra : Nat),
      (runFrom decode transport path base cursor idx fuel).finished = true →
      runFrom decode transport path base cursor idx (fuel + extra) =
        runFrom decode transport path base cursor idx fuel := by
  intro fuel
  induction fuel with
  | zero => intro c i e h; simp [runFrom] at h
  | succ f ih =>
    intro c i e h
    have harith : f + 1 + e = (f + e) + 1 := by omega
    rw [harith]
    cases htr : transport i path (requestParams base c) with
    | failure err => simp [runFrom, htr]
    | success body =>
      cases hps : pageStep (T := T) decode body with
      | error err => simp [runFrom, htr, hps]
      | ok o =>
        cases o with
        | none => simp [runFrom, htr, hps]
        | some pr =>
          obtain ⟨ts, lid⟩ := pr
          have h' : (runFrom decode transport path base (some lid) (i + 1) f).finished = true := by
            simpa [runFrom, htr, hps] using h
          simp [runFrom, htr, hps, ih (some lid) (i + 1) e h']

theorem runFrom_good_pages {T : Type} (decode : Json → Except String T)
    (transport : Transport) (path : String) (base : List (String × String)) :
    ∀ (pages : List (List Json)) (cursor : Option String) (off fuel : Nat),
      (∀ (i : Nat) (h : i < pages.length) (ps : List (String × String)),
        transport (off + i) path ps = .success (.arr (pages.get ⟨i, h⟩))) →
      (∀ p ∈ pages, ∃ last lid, p.getLast? = some last ∧ (last.index "id").as_str = some lid) →
      (∀ p ∈ pages, ∃ ts, decodeAll decode p = .ok ts) →
      runFrom decode transport path base cursor off (pages.length + fuel) =
        ⟨pagesEvents decode path base cursor pages ++
          (runFrom decode transport path base (finalCursor cursor pages) (off + pages.length) fuel).events,
         (runFrom decode transport path base (finalCursor cursor pages) (off + pages.length) fuel).finished⟩ := by
  intro pages
  induction pages with
  | nil =>
    intro cursor off fuel _ _ _
    simp [pagesEvents, finalCursor]
  | cons p rest ih =>
    intro cursor off fuel htr hwf hdec
    obtain ⟨last, lid, hlast, hid⟩ := hwf p (List.mem_cons_self p rest)
    obtain ⟨ts, hts⟩ := hdec p (List.mem_cons_self p rest)
    have htr0 : transport off path (requestParams base cursor) = .success (.arr p) := by
      have h0 := htr 0 (by simp) (requestParams base cursor)
      simpa using h0
    have harith : (p :: rest).length + fuel = (rest.length + fuel) + 1 := by
      simp [List.length_cons]; omega
    rw [harith, runFrom_step_good decode transport path base cursor off (rest.length + fuel)
      p last lid ts htr0 hlast hid hts]
    have hlid : lastIdOf p = some lid := by simp [lastIdOf, hlast, hid]
    have ihx := ih (some lid) (off + 1) fuel
      (fun i h ps => by
        have h' : i + 1 < (p :: rest).length := by simpa using Nat.succ_lt_succ h
        have e : off + 1 + i = off + (i + 1) := by omega
        rw [e]
        exact htr (i + 1) h' ps)
      (fun q hq => hwf q (List.mem_cons_of_mem p hq))
      (fun q hq => hdec q (List.mem_cons_of_mem p hq))
    rw [ihx]
    simp [pagesEvents, finalCursor, hlid, okDecoded, hts, Except.toOption, List.append_assoc,
      Nat.add_assoc, Nat.add_comm, Nat.add_left_comm]

theorem yieldMap_filterMap_items {T : Type} (ts : List T) :
    List.filterMap (yieldedItem ∘ fun t => Event.yield (Except.ok t)) ts =
      ts.map Except.ok := by
  induction ts with
  | nil => rfl
  | cons t ts ih => simp only [List.filterMap_cons, List.map_cons, Function.comp, yieldedItem, ih]

theorem yieldMap_filterMap_requests {T : Type} (ts : List T) :
    List.filterMap (requestedParams ∘ fun t => Event.yield (Except.ok t)) ts = [] := by
  induction ts with
  | nil => rfl
  | cons t ts ih => simp only [List.filterMap_cons, Function.comp, requestedParams, ih]

theorem pagesEvents_items {T : Type} (decode : Json → Except String T)
    (path : String) (base : List (String × String)) :
    ∀ (cursor : Option String) (pages : List (List Json)),
      List.filterMap yieldedItem (pagesEvents decode path base cursor pages) =
        ((pages.map (okDecoded decode)).flatten).map Except.ok := by
  intro cursor pages
  induction pages generalizing cursor with
  | nil => rfl
  | cons p rest ih =>
    simp [pagesEvents, yieldedItem, List.filterMap_append, yieldMap_filterMap_items, ih]

theorem pagesEvents_requests_length {T : Type} (decode : Json → Except String T)
    (path : String) (base : List (String × String)) :
    ∀ (cursor : Option String) (pages : List (List Json)),
      (List.filterMap requestedParams (pagesEvents decode path base cursor pages)).length =
        pages.length := by
  intro cursor pages
  induction pages generalizing cursor with
  | nil => rfl
  | cons p rest ih =>
    simp [pagesEvents, requestedParams, List.filterMap_append, yieldMap_filterMap_requests, ih]

/-- A non-empty page whose every element has a string `id` field has a
last element with a string `id`. -/
theorem wf_of_elem_ids (p : List Json) (hne : p ≠ [])
    (hids : ∀ j ∈ p, ∃ s, (j.index "id").as_str = some s) :
    ∃ last lid, p.getLast? = some last ∧ (last.index "id").as_str = some lid := by
  cases hl : p.getLast? with
  | none =>
    rw [List.getLast?_eq_none_iff] at hl
    exact absurd hl hne
  | some last =>
    obtain ⟨lid, hlid⟩ := hids last (List.mem_of_mem_getLast? (by simp [hl]))
    exact ⟨last, lid, rfl, hlid⟩

/-- A page whose every element decodes successfully decodes as a whole. -/
theorem decodeAll_ok_of_elems {T : Type} (decode : Json → Except String T) :
    ∀ (p : List Json), (∀ j ∈ p, ∃ t, decode j = .ok t) →
      ∃ ts, decodeAll decode p = .ok ts := by
  intro p
  induction p with
  | nil => exact fun _ => ⟨[], rfl⟩
  | cons j rest ih =>
    intro h
    obtain ⟨t, ht⟩ := h j (List.mem_cons_self j rest)
    obtain ⟨ts, hts⟩ := ih (fun q hq => h q (List.mem_cons_of_mem j hq))
    exact ⟨t :: ts, by simp [decodeAll, ht, hts]⟩

/-- C2: a transport answering the first `k` calls with well-formed pages
(every element decodable, every element carrying a string `id`, no page
empty) and the next call with the empty JSON array makes the stream yield
exactly the sum of the page sizes as successful items and then end with
no error; with `pages = []` this covers the empty-first-page case (zero
items, no error), and after the empty page no further page request is
issued (exactly `k + 1` requests are made, and giving the stream more
fuel changes nothing). -/
theorem termination_on_empty_page {T : Type} (decode : Json → Except String T)
    (transport : Transport) (path : String) (base : List (String × String))
    (pages : List (List Json))
    (htr : ∀ (i : Nat) (h : i < pages.length) (ps : List (String × String)),
      transport i path ps = .success (.arr (pages.get ⟨i, h⟩)))
    (hempty : ∀ ps, transport pages.length path ps = .success (.arr []))
    (hne : ∀ p ∈ pages, p ≠ [])
    (hids : ∀ p ∈ pages, ∀ j ∈ p, ∃ s, (j.index "id").as_str = some s)
    (hdec : ∀ p ∈ pages, ∀ j ∈ p, ∃ t, decode j = .ok t) :
    (stream_paginated decode transport path base (pages.length + 1)).items.length =
        (pages.map List.length).sum ∧
    (∀ it ∈ (stream_paginated decode transport path base (pages.length + 1)).items,
        ∃ t, it = Except.ok t) ∧
    (stream_paginated decode transport path base (pages.length + 1)).finished = true ∧
    (stream_paginated decode transport path base (pages.length + 1)).requests.length =
        pages.length + 1 ∧
    (∀ extra, stream_paginated decode transport path base (pages.length + 1 + extra) =
        stream_paginated decode transport path base (pages.length + 1)) := by
  have hwf : ∀ p ∈ pages, ∃ last lid, p.getLast? = some last ∧
      (last.index "id").as_str = some lid :=
    fun p hp => wf_of_elem_ids p (hne p hp) (hids p hp)
  have hdecAll : ∀ p ∈ pages, ∃ ts, decodeAll decode p = .ok ts :=
    fun p hp => decodeAll_ok_of_elems decode p (hdec p hp)
  have hmain := runFrom_good_pages decode transport path base pages none 0 1
    (by simpa using htr) hwf hdecAll
  have htail := runFrom_step_empty decode transport path base
    (finalCursor none pages) pages.length 0
    (hempty (requestParams base (finalCursor none pages)))
  rw [show (0 : Nat) + pages.length = pages.length by omega] at hmain
  have hr : stream_paginated decode transport path base (pages.length + 1) =
      ⟨pagesEvents decode path base none pages ++
        [.request path (requestParams base (finalCursor none pages))], true⟩ := by
    rw [stream_paginated, hmain, htail]
  have hlen : ∀ p ∈ pages, (okDecoded decode p).length = p.length := by
    intro p hp
    obtain ⟨ts, hts⟩ := hdecAll p hp
    have := decodeAll_length decode p ts hts
    simp [okDecoded, hts, Except.toOption, this]
  refine ⟨?_, ?_, ?_, ?_, ?_⟩
  · rw [hr]
    simp only [Run.items, List.filterMap_append, pagesEvents_items]
    simp [yieldedItem, List.length_flatten, List.map_map]
    exact congrArg List.sum (List.map_congr_left (fun p hp => by
      simp [Function.comp, hlen p hp]))
  · rw [hr]
    intro it hit
    simp only [Run.items, List.filterMap_append, pagesEvents_items] at hit
    have hnil : List.filterMap yieldedItem
        [Event.request (T := T) path (requestParams base (finalCursor none pages))] = [] := rfl
    rw [hnil, List.append_nil, List.mem_map] at hit
    obtain ⟨t, _, h⟩ := hit
    exact ⟨t, h.symm⟩
  · rw [hr]
  · rw [hr]
    simp only [Run.requests, List.filterMap_append, pagesEvents_requests_length]
    simp [requestedParams, pagesEvents_requests_length]
  · intro extra
    apply runFrom_finished_stable
    rw [show stream_paginated decode transport path base (pages.length + 1) =
      runFrom decode transport path base none 0 (pages.length + 1) from rfl] at hr
    rw [hr]

/-- A concrete decoder for witnesses: an item is the integer under its
`n` field. -/
def decN (j : Json) : Except String Int :=
  match j.index "n" with
  | .num k => .ok k
  | _ => .error "missing n"

/-- Concrete well-formed raw elements for witnesses. -/
def jA : Json := .obj [("id", .str "a"), ("n", .num 1)]

/-- A second concrete well-formed raw element for witnesses. -/
def jB : Json := .obj [("id", .str "b"), ("n", .num 2)]

/-- A transport serving one page of two items, then empty pages. -/
def tPages : Transport := fun i _ _ =>
  match i with
  | 0 => .success (.arr [jA, jB])
  | _ => .success (.arr [])

/-- Witness for C2 at a concrete transport: one page of two items, then
the empty page. -/
theorem termination_on_empty_page_witness :
    (stream_paginated decN tPages "/markets" [] 2).items.length = 2 ∧
    (∀ it ∈ (stream_paginated decN tPages "/markets" [] 2).items, ∃ t, it = Except.ok t) ∧
    (stream_paginated decN tPages "/markets" [] 2).finished = true ∧
    (stream_paginated decN tPages "/markets" [] 2).requests.length = 2 ∧
    (∀ extra, stream_paginated decN tPages "/markets" [] (2 + extra) =
        stream_paginated decN tPages "/markets" [] 2) :=
  termination_on_empty_page decN tPages "/markets" [] [[jA, jB]]
    (by
      intro i h ps
      cases i with
      | zero => rfl
      | succ n => exact absurd h (by simp))
    (fun ps => rfl)
    (by
      intro p hp
      rw [List.mem_singleton] at hp
      subst hp
      simp)
    (by
      intro p hp
      rw [List.mem_singleton] at hp
      subst hp
      intro j hj
      simp only [List.mem_cons, List.not_mem_nil, or_false] at hj
      rcases hj with rfl | rfl
      · exact ⟨"a", rfl⟩
      · exact ⟨"b", rfl⟩)
    (by
      intro p hp
      rw [List.mem_singleton] at hp
      subst hp
      intro j hj
      simp only [List.mem_cons, List.not_mem_nil, or_false] at hj
      rcases hj with rfl | rfl
      · exact ⟨1, rfl⟩
      · exact ⟨2, rfl⟩)

/-- Concatenation of well-decoding pages decodes as a whole, to the
concatenation of the per-page decodings. -/
theorem decodeAll_flatten {T : Type} (decode : Json → Except String T) :
    ∀ (pages : List (List Json)), (∀ p ∈ pages, ∃ ts, decodeAll decode p = .ok ts) →
      decodeAll decode pages.flatten = .ok ((pages.map (okDecoded decode)).flatten) := by
  intro pages
  induction pages with
  | nil => intro _; rfl
  | cons p rest ih =>
    intro h
    obtain ⟨ts, hts⟩ := h p (List.mem_cons_self p rest)
    have hrest := ih (fun q hq => h q (List.mem_cons_of_mem p hq))
    have := decodeAll_append decode p rest.flatten ts
      ((rest.map (okDecoded decode)).flatten) hts hrest
    simpa [okDecoded, hts, Except.toOption] using this

/-- C6: when the transport serves well-formed pages followed by the empty
array, the successful items the stream yields are exactly the element-wise
decoding of the concatenation of the raw page arrays, in server order
within each page and in page order across pages; moreover the full event
trace is `pagesEvents`, in which, by construction, every decoded item of a
page appears before the next page's request is issued. -/
theorem ordering_concatenation {T : Type} (decode : Json → Except String T)
    (transport : Transport) (path : String) (base : List (String × String))
    (pages : List (List Json))
    (htr : ∀ (i : Nat) (h : i < pages.length) (ps : List (String × String)),
      transport i path ps = .success (.arr (pages.get ⟨i, h⟩)))
    (hempty : ∀ ps, transport pages.length path ps = .success (.arr []))
    (hne : ∀ p ∈ pages, p ≠ [])
    (hids : ∀ p ∈ pages, ∀ j ∈ p, ∃ s, (j.index "id").as_str = some s)
    (hdec : ∀ p ∈ pages, ∀ j ∈ p, ∃ t, decode j = .ok t) :
    ∃ allItems : List T,
      decodeAll decode pages.flatten = .ok allItems ∧
      (stream_paginated decode transport path base (pages.length + 1)).items =
        allItems.map Except.ok ∧
      (stream_paginated decode transport path base (pages.length + 1)).events =
        pagesEvents decode path base none pages ++
          [.request path (requestParams base (finalCursor none pages))] := by
  have hwf : ∀ p ∈ pages, ∃ last lid, p.getLast? = some last ∧
      (last.index "id").as_str = some lid :=
    fun p hp => wf_of_elem_ids p (hne p hp) (hids p hp)
  have hdecAll : ∀ p ∈ pages, ∃ ts, decodeAll decode p = .ok ts :=
    fun p hp => decodeAll_ok_of_elems decode p (hdec p hp)
  have hmain := runFrom_good_pages decode transport path base pages none 0 1
    (by simpa using htr) hwf hdecAll
  have htail := runFrom_step_empty decode transport path base
    (finalCursor none pages) pages.length 0
    (hempty (requestParams base (finalCursor none pages)))
  rw [show (0 : Nat) + pages.length = pages.length by omega] at hmain
  have hr : stream_paginated decode transport path base (pages.length + 1) =
      ⟨pagesEvents decode path base none pages ++
        [.request path (requestParams base (finalCursor none pages))], true⟩ := by
    rw [stream_paginated, hmain, htail]
  refine ⟨(pages.map (okDecoded decode)).flatten, decodeAll_flatten decode pages hdecAll, ?_, ?_⟩
  · rw [hr]
    simp only [Run.items, List.filterMap_append, pagesEvents_items]
    simp [yieldedItem]
  · rw [hr]

/-- Witness for C6 at the same concrete transport as the C2 witness. -/
theorem ordering_concatenation_witness :
    ∃ allItems : List Int,
      decodeAll decN ([[jA, jB]] : List (List Json)).flatten = .ok allItems ∧
      (stream_paginated decN tPages "/markets" [] 2).items = allItems.map Except.ok ∧
      (stream_paginated decN tPages "/markets" [] 2).events =
        pagesEvents decN "/markets" [] none [[jA, jB]] ++
          [.request "/markets" (requestParams [] (finalCursor none [[jA, jB]]))] :=
  ordering_concatenation decN tPages "/markets" [] [[jA, jB]]
    (by
      intro i h ps
      cases i with
      | zero => rfl
      | succ n => exact absurd h (by simp))
    (fun ps => rfl)
    (by
      intro p hp
      rw [List.mem_singleton] at hp
      subst hp
      simp)
    (by
      intro p hp
      rw [List.mem_singleton] at hp
      subst hp
      intro j hj
      simp only [List.mem_cons, List.not_mem_nil, or_false] at hj
      rcases hj with rfl | rfl
      · exact ⟨"a", rfl⟩
      · exact ⟨"b", rfl⟩)
    (by
      intro p hp
      rw [List.mem_singleton] at hp
      subst hp
      intro j hj
      simp only [List.mem_cons, List.not_mem_nil, or_false] at hj
      rcases hj with rfl | rfl
      · exact ⟨1, rfl⟩
      · exact ⟨2, rfl⟩)

/-- After a run of well-formed pages, a page step that yields a terminal
error `err` makes the whole stream yield the previous pages' items
followed by that single error, and end: no item at all is emitted from
the erroring page, exactly one request per served page is made (and one
for the erroring page), and more fuel changes nothing. -/
theorem run_good_then_error {T : Type} (decode : Json → Except String T)
    (transport : Transport) (path : String) (base : List (String × String))
    (pages : List (List Json)) (err : ManifoldError)
    (htr : ∀ (i : Nat) (h : i < pages.length) (ps : List (String × String)),
      transport i path ps = .success (.arr (pages.get ⟨i, h⟩)))
    (hne : ∀ p ∈ pages, p ≠ [])
    (hids : ∀ p ∈ pages, ∀ j ∈ p, ∃ s, (j.index "id").as_str = some s)
    (hdec : ∀ p ∈ pages, ∀ j ∈ p, ∃ t, decode j = .ok t)
    (htail : runFrom decode transport path base (finalCursor none pages) pages.length 1 =
      ⟨[.request path (requestParams base (finalCursor none pages)),
        .yield (.error err)], true⟩) :
    ∃ okPart,
      (stream_paginated decode transport path base (pages.length + 1)).items =
        okPart ++ [.error err] ∧
      (∀ it ∈ okPart, ∃ t, it = Except.ok t) ∧
      okPart.length = (pages.map List.length).sum ∧
      (stream_paginated decode transport path base (pages.length + 1)).finished = true ∧
      (stream_paginated decode transport path base (pages.length + 1)).requests.length =
        pages.length + 1 ∧
      (∀ extra, stream_paginated decode transport path base (pages.length + 1 + extra) =
        stream_paginated decode transport path base (pages.length + 1)) := by
  have hwf : ∀ p ∈ pages, ∃ last lid, p.getLast? = some last ∧
      (last.index "id").as_str = some lid :=
    fun p hp => wf_of_elem_ids p (hne p hp) (hids p hp)
  have hdecAll : ∀ p ∈ pages, ∃ ts, decodeAll decode p = .ok ts :=
    fun p hp => decodeAll_ok_of_elems decode p (hdec p hp)
  have hmain := runFrom_good_pages decode transport path base pages none 0 1
    (by simpa using htr) hwf hdecAll
  rw [show (0 : Nat) + pages.length = pages.length by omega] at hmain
  have hr : stream_paginated decode transport path base (pages.length + 1) =
      ⟨pagesEvents decode path base none pages ++
        [.request path (requestParams base (finalCursor none pages)),
         .yield (.error err)], true⟩ := by
    rw [stream_paginated, hmain, htail]
  have hlen : ∀ p ∈ pages, (okDecoded decode p).length = p.length := by
    intro p hp
    obtain ⟨ts, hts⟩ := hdecAll p hp
    have := decodeAll_length decode p ts hts
    simp [okDecoded, hts, Except.toOption, this]
  refine ⟨((pages.map (okDecoded decode)).flatten).map Except.ok, ?_, ?_, ?_, ?_, ?_, ?_⟩
  · rw [hr]
    simp only [Run.items, List.filterMap_append, pagesEvents_items]
    simp [yieldedItem]
  · intro it hit
    rw [List.mem_map] at hit
    obtain ⟨t, _, h⟩ := hit
    exact ⟨t, h.symm⟩
  · simp [List.length_flatten, List.map_map]
    exact congrArg List.sum (List.map_congr_left (fun p hp => by
      simp [Function.comp, hlen p hp]))
  · rw [hr]
  · rw [hr]
    simp only [Run.requests, List.filterMap_append]
    simp [requestedParams, pagesEvents_requests_length]
  · intro extra
    apply runFrom_finished_stable
    rw [show stream_paginated decode transport path base (pages.length + 1) =
      runFrom decode transport path base none 0 (pages.length + 1) from rfl] at hr
    rw [hr]

/-- C3: when a fetched page (served after any run of well-formed pages)
has a valid cursor id but some element fails to decode, the stream yields
exactly one terminal `ParseError` (the library's decode-failure kind) and
ends: the items yielded are exactly the previous pages' items, so no
element of the failing page — neither before, at, nor after the failing
position — is emitted, and the bad element is never silently skipped.
The code implements the "none at all" arm of the claim's disjunction. -/
theorem decode_failure_isolation {T : Type} (decode : Json → Except String T)
    (transport : Transport) (path : String) (base : List (String × String))
    (pages : List (List Json)) (badPage : List Json) (last : Json) (lid : String) (e : String)
    (htr : ∀ (i : Nat) (h : i < pages.length) (ps : List (String × String)),
      transport i path ps = .success (.arr (pages.get ⟨i, h⟩)))
    (hne : ∀ p ∈ pages, p ≠ [])
    (hids : ∀ p ∈ pages, ∀ j ∈ p, ∃ s, (j.index "id").as_str = some s)
    (hdec : ∀ p ∈ pages, ∀ j ∈ p, ∃ t, decode j = .ok t)
    (hbad : ∀ ps, transport pages.length path ps = .success (.arr badPage))
    (hlast : badPage.getLast? = some last)
    (hid : (last.index "id").as_str = some lid)
    (hfail : decodeAll decode badPage = .error e) :
    ∃ okPart,
      (stream_paginated decode transport path base (pages.length + 1)).items =
        okPart ++ [.error (.ParseError e)] ∧
      (∀ it ∈ okPart, ∃ t, it = Except.ok t) ∧
      okPart.length = (pages.map List.length).sum ∧
      (stream_paginated decode transport path base (pages.length + 1)).finished = true ∧
      (stream_paginated decode transport path base (pages.length + 1)).requests.length =
        pages.length + 1 ∧
      (∀ extra, stream_paginated decode transport path base (pages.length + 1 + extra) =
        stream_paginated decode transport path base (pages.length + 1)) :=
  run_good_then_error decode transport path base pages (.ParseError e) htr hne hids hdec
    (runFrom_step_decodeFail decode transport path base (finalCursor none pages)
      pages.length 0 badPage last lid e (hbad _) hlast hid hfail)

/-- A raw element with a string id but no `n` field: decodable ids, but
`decN` fails on it. -/
def jNoN : Json := .obj [("id", .str "q")]

/-- An object element with no `id` field. -/
def jNoId : Json := .obj [("n", .num 3)]

/-- A transport whose first page has a decodable element, then a failing
one, then a decodable one (the page's last id is valid). -/
def tDecodeFail : Transport := fun _ _ _ => .success (.arr [jA, jNoN, jB])

/-- Witness for C3: element 2 of 3 fails to decode; the decodable
elements 1 and 3 are not emitted either — zero items, one `ParseError`. -/
theorem decode_failure_isolation_witness :
    ∃ okPart,
      (stream_paginated decN tDecodeFail "/bets" [] 1).items =
        okPart ++ [.error (.ParseError "missing n")] ∧
      (∀ it ∈ okPart, ∃ t, it = Except.ok t) ∧
      okPart.length = 0 ∧
      (stream_paginated decN tDecodeFail "/bets" [] 1).finished = true ∧
      (stream_paginated decN tDecodeFail "/bets" [] 1).requests.length = 1 ∧
      (∀ extra, stream_paginated decN tDecodeFail "/bets" [] (1 + extra) =
        stream_paginated decN tDecodeFail "/bets" [] 1) :=
  decode_failure_isolation decN tDecodeFail "/bets" [] [] [jA, jNoN, jB] jB "b" "missing n"
    (fun i h ps => absurd h (by simp))
    (fun p hp => absurd hp (List.not_mem_nil p))
    (fun p hp => absurd hp (List.not_mem_nil p))
    (fun p hp => absurd hp (List.not_mem_nil p))
    (fun ps => rfl) rfl rfl rfl

/-- C4: a non-empty raw page whose last element lacks a string `id`
(served after any run of well-formed pages) makes the stream yield
exactly one terminal `SchemaError` ("Not a string id?", the library's
schema-violation kind, carrying the indexed value) and end; exactly one
request is made for that page and none after it.  The conclusion holds
for every decoder and needs no decodability hypothesis on the bad page:
the id check happens before per-item decoding. -/
theorem missing_id_schema_error {T : Type} (decode : Json → Except String T)
    (transport : Transport) (path : String) (base : List (String × String))
    (pages : List (List Json)) (badPage : List Json) (last : Json)
    (htr : ∀ (i : Nat) (h : i < pages.length) (ps : List (String × String)),
      transport i path ps = .success (.arr (pages.get ⟨i, h⟩)))
    (hne : ∀ p ∈ pages, p ≠ [])
    (hids : ∀ p ∈ pages, ∀ j ∈ p, ∃ s, (j.index "id").as_str = some s)
    (hdec : ∀ p ∈ pages, ∀ j ∈ p, ∃ t, decode j = .ok t)
    (hbad : ∀ ps, transport pages.length path ps = .success (.arr badPage))
    (hlast : badPage.getLast? = some last)
    (hid : (last.index "id").as_str = none) :
    ∃ okPart,
      (stream_paginated decode transport path base (pages.length + 1)).items =
        okPart ++ [.error (.SchemaError "Not a string id?" (some (last.index "id")))] ∧
      (∀ it ∈ okPart, ∃ t, it = Except.ok t) ∧
      okPart.length = (pages.map List.length).sum ∧
      (stream_paginated decode transport path base (pages.length + 1)).finished = true ∧
      (stream_paginated decode transport path base (pages.length + 1)).requests.length =
        pages.length + 1 ∧
      (∀ extra, stream_paginated decode transport path base (pages.length + 1 + extra) =
        stream_paginated decode transport path base (pages.length + 1)) :=
  run_good_then_error decode transport path base pages
    (.SchemaError "Not a string id?" (some (last.index "id"))) htr hne hids hdec
    (runFrom_step_badId decode transport path base (finalCursor none pages)
      pages.length 0 badPage last (hbad _) hlast hid)

/-- A transport whose first page's single element is an object without an
`id` field. -/
def tMissingId : Transport := fun _ _ _ => .success (.arr [jNoId])

/-- Witness for C4: one page whose last element is an object without an
`id` field. -/
theorem missing_id_schema_error_witness :
    ∃ okPart,
      (stream_paginated decN tMissingId "/bets" [] 1).items =
        okPart ++ [.error (.SchemaError "Not a string id?" (some Json.null))] ∧
      (∀ it ∈ okPart, ∃ t, it = Except.ok t) ∧
      okPart.length = 0 ∧
      (stream_paginated decN tMissingId "/bets" [] 1).finished = true ∧
      (stream_paginated decN tMissingId "/bets" [] 1).requests.length = 1 ∧
      (∀ extra, stream_paginated decN tMissingId "/bets" [] (1 + extra) =
        stream_paginated decN tMissingId "/bets" [] 1) :=
  missing_id_schema_error decN tMissingId "/bets" [] [] [jNoId] jNoId
    (fun i h ps => absurd h (by simp))
    (fun p hp => absurd hp (List.not_mem_nil p))
    (fun p hp => absurd hp (List.not_mem_nil p))
    (fun p hp => absurd hp (List.not_mem_nil p))
    (fun ps => rfl) rfl rfl

/-- C5: a page body that is not a JSON array (served after any run of
well-formed pages) makes the stream yield exactly one terminal
`SchemaError` ("Streaming response returned not an array?", carrying the
whole body) and end, before any item of that response is emitted: the
items yielded are exactly the previous pages' items. -/
theorem non_array_schema_error {T : Type} (decode : Json → Except String T)
    (transport : Transport) (path : String) (base : List (String × String))
    (pages : List (List Json)) (body : Json)
    (htr : ∀ (i : Nat) (h : i < pages.length) (ps : List (String × String)),
      transport i path ps = .success (.arr (pages.get ⟨i, h⟩)))
    (hne : ∀ p ∈ pages, p ≠ [])
    (hids : ∀ p ∈ pages, ∀ j ∈ p, ∃ s, (j.index "id").as_str = some s)
    (hdec : ∀ p ∈ pages, ∀ j ∈ p, ∃ t, decode j = .ok t)
    (hbad : ∀ ps, transport pages.length path ps = .success body)
    (harr : body.as_array = none) :
    ∃ okPart,
      (stream_paginated decode transport path base (pages.length + 1)).items =
        okPart ++ [.error (.SchemaError "Streaming response returned not an array?" (some body))] ∧
      (∀ it ∈ okPart, ∃ t, it = Except.ok t) ∧
      okPart.length = (pages.map List.length).sum ∧
      (stream_paginated decode transport path base (pages.length + 1)).finished = true ∧
      (stream_paginated decode transport path base (pages.length + 1)).requests.length =
        pages.length + 1 ∧
      (∀ extra, stream_paginated decode transport path base (pages.length + 1 + extra) =
        stream_paginated decode transport path base (pages.length + 1)) :=
  run_good_then_error decode transport path base pages
    (.SchemaError "Streaming response returned not an array?" (some body)) htr hne hids hdec
    (runFrom_step_notArray decode transport path base (finalCursor none pages)
      pages.length 0 body (hbad _) harr)

/-- A JSON object body, not an array. -/
def bodyObj : Json := .obj [("error", .str "nope")]

/-- A transport answering every call with a JSON object body. -/
def tNotArray : Transport := fun _ _ _ => .success bodyObj

/-- Witness for C5: a transport answering with a JSON object. -/
theorem non_array_schema_error_witness :
    ∃ okPart,
      (stream_paginated decN tNotArray "/bets" [] 1).items =
        okPart ++ [.error (.SchemaError "Streaming response returned not an array?" (some bodyObj))] ∧
      (∀ it ∈ okPart, ∃ t, it = Except.ok t) ∧
      okPart.length = 0 ∧
      (stream_paginated decN tNotArray "/bets" [] 1).finished = true ∧
      (stream_paginated decN tNotArray "/bets" [] 1).requests.length = 1 ∧
      (∀ extra, stream_paginated decN tNotArray "/bets" [] (1 + extra) =
        stream_paginated decN tNotArray "/bets" [] 1) :=
  non_array_schema_error decN tNotArray "/bets" [] [] bodyObj
    (fun i h ps => absurd h (by simp))
    (fun p hp => absurd hp (List.not_mem_nil p))
    (fun p hp => absurd hp (List.not_mem_nil p))
    (fun p hp => absurd hp (List.not_mem_nil p))
    (fun ps => rfl) rfl

/-- Whether a JSON value is an object. -/
def Json.isObj : Json → Bool
  | .obj _ => true
  | _ => false

/-- Read-indexing any non-object JSON value returns `Null` (it does not
panic), mirroring serde_json's documented `Index` behaviour. -/
theorem Json.index_of_not_obj (j : Json) (h : j.isObj = false) (key : String) :
    j.index key = .null := by
  cases j with
  | obj fields => simp [Json.isObj] at h
  | null => rfl
  | bool b => rfl
  | num n => rfl
  | str s => rfl
  | arr xs => rfl

/-- C10: when the last element of a non-empty raw page is not a JSON
object at all, indexing it with "id" is total and yields `Null`, and the
stream takes the same path as a missing id on an object: exactly one
terminal `SchemaError` ("Not a string id?", carrying `Null`) and no
further requests. -/
theorem non_object_last_element_total {T : Type} (decode : Json → Except String T)
    (transport : Transport) (path : String) (base : List (String × String))
    (pages : List (List Json)) (badPage : List Json) (last : Json)
    (htr : ∀ (i : Nat) (h : i < pages.length) (ps : List (String × String)),
      transport i path ps = .success (.arr (pages.get ⟨i, h⟩)))
    (hne : ∀ p ∈ pages, p ≠ [])
    (hids : ∀ p ∈ pages, ∀ j ∈ p, ∃ s, (j.index "id").as_str = some s)
    (hdec : ∀ p ∈ pages, ∀ j ∈ p, ∃ t, decode j = .ok t)
    (hbad : ∀ ps, transport pages.length path ps = .success (.arr badPage))
    (hlast : badPage.getLast? = some last)
    (hobj : last.isObj = false) :
    last.index "id" = Json.null ∧
    ∃ okPart,
      (stream_paginated decode transport path base (pages.length + 1)).items =
        okPart ++ [.error (.SchemaError "Not a string id?" (some Json.null))] ∧
      (∀ it ∈ okPart, ∃ t, it = Except.ok t) ∧
      okPart.length = (pages.map List.length).sum ∧
      (stream_paginated decode transport path base (pages.length + 1)).finished = true ∧
      (stream_paginated decode transport path base (pages.length + 1)).requests.length =
        pages.length + 1 ∧
      (∀ extra, stream_paginated decode transport path base (pages.length + 1 + extra) =
        stream_paginated decode transport path base (pages.length + 1)) := by
  have hnull := Json.index_of_not_obj last hobj "id"
  refine ⟨hnull, ?_⟩
  have hid : (last.index "id").as_str = none := by rw [hnull]; rfl
  have htail := runFrom_step_badId decode transport path base (finalCursor none pages)
    pages.length 0 badPage last (hbad _) hlast hid
  rw [hnull] at htail
  exact run_good_then_error decode transport path base pages
    (.SchemaError "Not a string id?" (some Json.null)) htr hne hids hdec htail

/-- A transport whose first page's single element is a bare string. -/
def tNonObjLast : Transport := fun _ _ _ => .success (.arr [.str "oops"])

/-- Witness for C10: a page whose last element is the string "oops". -/
theorem non_object_last_element_total_witness :
    (Json.str "oops").index "id" = Json.null ∧
    ∃ okPart,
      (stream_paginated decN tNonObjLast "/bets" [] 1).items =
        okPart ++ [.error (.SchemaError "Not a string id?" (some Json.null))] ∧
      (∀ it ∈ okPart, ∃ t, it = Except.ok t) ∧
      okPart.length = 0 ∧
      (stream_paginated decN tNonObjLast "/bets" [] 1).finished = true ∧
      (stream_paginated decN tNonObjLast "/bets" [] 1).requests.length = 1 ∧
      (∀ extra, stream_paginated decN tNonObjLast "/bets" [] (1 + extra) =
        stream_paginated decN tNonObjLast "/bets" [] 1) :=
  non_object_last_element_total decN tNonObjLast "/bets" [] [] [.str "oops"] (.str "oops")
    (fun i h ps => absurd h (by simp))
    (fun p hp => absurd hp (List.not_mem_nil p))
    (fun p hp => absurd hp (List.not_mem_nil p))
    (fun p hp => absurd hp (List.not_mem_nil p))
    (fun ps => rfl) rfl rfl

/-- A JSON value whose `as_array` is `some xs` is the array `xs`. -/
theorem Json.as_array_eq_some (j : Json) (xs : List Json) (h : j.as_array = some xs) :
    j = .arr xs := by
  cases j with
  | arr ys => simp [Json.as_array] at h; rw [h]
  | null => simp [Json.as_array] at h
  | bool b => simp [Json.as_array] at h
  | num n => simp [Json.as_array] at h
  | str s => simp [Json.as_array] at h
  | obj fields => simp [Json.as_array] at h

/-- From any cursor state, every yielded item except possibly the final
one is a success, and any yielded error is the final item of a finished
run. -/
theorem run_items_terminal_aux {T : Type} (decode : Json → Except String T)
    (transport : Transport) (path : String) (base : List (String × String)) :
    ∀ (fuel : Nat) (cursor : Option String) (idx : Nat),
      (∀ it ∈ (runFrom decode transport path base cursor idx fuel).items.dropLast,
        ∃ t, it = Except.ok t) ∧
      (∀ e, .error e ∈ (runFrom decode transport path base cursor idx fuel).items →
        (runFrom decode transport path base cursor idx fuel).items.getLast? =
          some (.error e) ∧
        (runFrom decode transport path base cursor idx fuel).finished = true) := by
  intro fuel
  induction fuel with
  | zero =>
    intro c i
    constructor
    · intro it hit
      simp [runFrom, Run.items] at hit
    · intro e he
      simp [runFrom, Run.items] at he
  | succ f ih =>
    intro c i
    have singleCase : ∀ (err : ManifoldError),
        runFrom decode transport path base c i (f + 1) =
          ⟨[.request path (requestParams base c), .yield (.error err)], true⟩ →
        (∀ it ∈ (runFrom decode transport path base c i (f + 1)).items.dropLast,
          ∃ t, it = Except.ok t) ∧
        (∀ e, .error e ∈ (runFrom decode transport path base c i (f + 1)).items →
          (runFrom decode transport path base c i (f + 1)).items.getLast? =
            some (.error e) ∧
          (runFrom decode transport path base c i (f + 1)).finished = true) := by
      intro err hrw
      rw [hrw]
      constructor
      · intro it hit
        simp [Run.items, yieldedItem, requestedParams] at hit
      · intro e he
        simp only [Run.items] at he ⊢
        have hitems : List.filterMap yieldedItem
            [Event.request (T := T) path (requestParams base c),
             Event.yield (Except.error err)] = [Except.error err] := rfl
        rw [hitems] at he ⊢
        rw [List.mem_singleton] at he
        exact ⟨by rw [he]; simp, trivial⟩
    cases htr : transport i path (requestParams base c) with
    | failure err =>
      exact singleCase (.HttpError err)
        (runFrom_step_failure decode transport path base c i f err htr)
    | success body =>
      cases harr : body.as_array with
      | none =>
        exact singleCase _ (runFrom_step_notArray decode transport path base c i f body htr harr)
      | some xs =>
        have hbody := Json.as_array_eq_some body xs harr
        subst hbody
        cases hlast : xs.getLast? with
        | none =>
          rw [List.getLast?_eq_none_iff] at hlast
          subst hlast
          rw [runFrom_step_empty decode transport path base c i f htr]
          constructor
          · intro it hit
            simp [Run.items, yieldedItem] at hit
          · intro e he
            simp [Run.items, yieldedItem] at he
        | some last =>
          cases hid : (last.index "id").as_str with
          | none =>
            exact singleCase _
              (runFrom_step_badId decode transport path base c i f xs last htr hlast hid)
          | some lid =>
            cases hdec : decodeAll decode xs with
            | error e =>
              exact singleCase _
                (runFrom_step_decodeFail decode transport path base c i f xs last lid e
                  htr hlast hid hdec)
            | ok ts =>
              rw [runFrom_step_good decode transport path base c i f xs last lid ts
                htr hlast hid hdec]
              have hitems : (Run.mk
                  (Event.request (T := T) path (requestParams base c) ::
                    (ts.map (fun t => Event.yield (Except.ok t)) ++
                      (runFrom decode transport path base (some lid) (i + 1) f).events))
                  (runFrom decode transport path base (some lid) (i + 1) f).finished).items =
                  ts.map Except.ok ++
                    (runFrom decode transport path base (some lid) (i + 1) f).items := by
                simp [Run.items, yieldedItem, List.filterMap_append, yieldMap_filterMap_items]
              rw [hitems]
              constructor
              · intro it hit
                rcases hR : (runFrom decode transport path base (some lid) (i + 1) f).items with
                  _ | ⟨r, rs⟩
                · rw [hR, List.append_nil] at hit
                  have := List.mem_of_mem_dropLast hit
                  rw [List.mem_map] at this
                  obtain ⟨t, _, h⟩ := this
                  exact ⟨t, h.symm⟩
                · rw [List.dropLast_append] at hit
                  rw [hR] at hit
                  simp only [List.isEmpty_cons] at hit
                  rw [if_neg (by simp)] at hit
                  rw [List.mem_append] at hit
                  rcases hit with hit | hit
                  · rw [List.mem_map] at hit
                    obtain ⟨t, _, h⟩ := hit
                    exact ⟨t, h.symm⟩
                  · have := (ih (some lid) (i + 1)).1 it (by rw [hR]; exact hit)
                    exact this
              · intro e he
                rw [List.mem_append] at he
                rcases he with he | he
                · rw [List.mem_map] at he
                  obtain ⟨t, _, h⟩ := he
                  exact absurd h (by simp)
                · obtain ⟨hL, hF⟩ := (ih (some lid) (i + 1)).2 e he
                  constructor
                  · rw [List.getLast?_append, hL]
                    rfl
                  · exact hF

/-- C7: for every transport behaviour and every fuel bound, a consumer
sees a run of successful items followed by at most one error: every item
other than the last is an `ok`, and if an error is ever yielded it is the
last item and the stream has ended (so no `ok` follows an error, and
every error kind — transport failure, non-array shape, missing id, decode
failure — is terminal for the stream instance). -/
theorem errors_terminal {T : Type} (decode : Json → Except String T)
    (transport : Transport) (path : String) (base : List (String × String)) (fuel : Nat) :
    (∀ it ∈ (stream_paginated decode transport path base fuel).items.dropLast,
      ∃ t, it = Except.ok t) ∧
    (∀ e, .error e ∈ (stream_paginated decode transport path base fuel).items →
      (stream_paginated decode transport path base fuel).items.getLast? = some (.error e) ∧
      (stream_paginated decode transport path base fuel).finished = true) :=
  run_items_terminal_aux decode transport path base fuel none 0



/-- From any cursor state, every request's parameter list is the base
list itself or the base list with exactly the cursor pair appended. -/
theorem run_requests_shape_aux {T : Type} (decode : Json → Except String T)
    (transport : Transport) (path : String) (base : List (String × String)) :
    ∀ (fuel : Nat) (cursor : Option String) (idx : Nat),
      ∀ ps ∈ (runFrom decode transport path base cursor idx fuel).requests,
        (ps = base ∨ ∃ s, ps = base ++ [("before", s)]) ∧
        ps.take base.length = base := by
  intro fuel
  have hshape : ∀ (c : Option String),
      (requestParams base c = base ∨ ∃ s, requestParams base c = base ++ [("before", s)]) ∧
      (requestParams base c).take base.length = base := by
    intro c
    cases c with
    | none => exact ⟨Or.inl rfl, List.take_length base⟩
    | some s => exact ⟨Or.inr ⟨s, rfl⟩, List.take_left base [("before", s)]⟩
  induction fuel with
  | zero =>
    intro c i ps hps
    simp [runFrom, Run.requests] at hps
  | succ f ih =>
    intro c i ps hps
    cases htr : transport i path (requestParams base c) with
    | failure err =>
      rw [runFrom_step_failure decode transport path base c i f err htr] at hps
      simp [Run.requests, requestedParams, yieldedItem] at hps
      rw [hps]
      exact hshape c
    | success body =>
      cases hstep : pageStep (T := T) decode body with
      | error err =>
        rw [show runFrom decode transport path base c i (f + 1) =
            ⟨[.request path (requestParams base c), .yield (.error err)], true⟩ by
          simp [runFrom, htr, hstep]] at hps
        simp [Run.requests, requestedParams] at hps
        rw [hps]
        exact hshape c
      | ok o =>
        cases o with
        | none =>
          rw [show runFrom decode transport path base c i (f + 1) =
              ⟨[.request path (requestParams base c)], true⟩ by
            simp [runFrom, htr, hstep]] at hps
          simp [Run.requests, requestedParams] at hps
          rw [hps]
          exact hshape c
        | some pr =>
          obtain ⟨ts, lid⟩ := pr
          rw [show runFrom decode transport path base c i (f + 1) =
              ⟨.request path (requestParams base c) ::
                (ts.map (fun t => .yield (.ok t)) ++
                  (runFrom decode transport path base (some lid) (i + 1) f).events),
               (runFrom decode transport path base (some lid) (i + 1) f).finished⟩ by
            simp [runFrom, htr, hstep]] at hps
          have hreq : (Run.mk
              (Event.request (T := T) path (requestParams base c) ::
                (ts.map (fun t => Event.yield (Except.ok t)) ++
                  (runFrom decode transport path base (some lid) (i + 1) f).events))
              (runFrom decode transport path base (some lid) (i + 1) f).finished).requests =
              requestParams base c ::
                (runFrom decode transport path base (some lid) (i + 1) f).requests := by
            simp [Run.requests, requestedParams, List.filterMap_append, yieldMap_filterMap_requests]
          rw [hreq] at hps
          rcases List.mem_cons.mp hps with rfl | hps'
          · exact hshape c
          · exact ih (some lid) (i + 1) ps hps'

/-- C8: the base parameter set is never mutated: every page request of a
stream carries either exactly the base list or the base list with a
single `("before", s)` pair appended to a fresh copy, and in both cases
the first `base.length` entries are the unchanged base list.  Since a
run is a pure function of its own transport, path, base and fuel, two
streams built from the same base never observe each other's appended
cursor: each one's requests satisfy this shape with its own cursor
values only. -/
theorem base_params_immutable {T : Type} (decode : Json → Except String T)
    (transport : Transport) (path : String) (base : List (String × String)) (fuel : Nat) :
    ∀ ps ∈ (stream_paginated decode transport path base fuel).requests,
      (ps = base ∨ ∃ s, ps = base ++ [("before", s)]) ∧
      ps.take base.length = base :=
  run_requests_shape_aux decode transport path base fuel none 0

/-- Witness for C8: the second request of a concrete two-page stream has
the base `[("x", "y")]` unchanged with the cursor appended. -/
theorem base_params_immutable_witness :
    (([("x", "y"), ("before", "b")] : List (String × String)) = [("x", "y")] ∨
      ∃ s, ([("x", "y"), ("before", "b")] : List (String × String)) =
        [("x", "y")] ++ [("before", s)]) ∧
    ([("x", "y"), ("before", "b")] : List (String × String)).take 1 = [("x", "y")] :=
  base_params_immutable decN tPages "/markets" [("x", "y")] 2
    [("x", "y"), ("before", "b")]
    (by
      rw [show (stream_paginated decN tPages "/markets" [("x", "y")] 2).requests =
        [[("x", "y")], [("x", "y"), ("before", "b")]] from rfl]
      exact List.mem_cons_of_mem _ (List.mem_cons_self _ _))



/-- The requests of a good step are the step's own request followed by
the continuation's requests. -/
theorem requests_step_good {T : Type} (decode : Json → Except String T)
    (transport : Transport) (path : String) (base : List (String × String))
    (cursor : Option String) (idx fuel : Nat) (p : List Json) (last : Json)
    (lid : String) (ts : List T)
    (htr : transport idx path (requestParams base cursor) = .success (.arr p))
    (hlast : p.getLast? = some last)
    (hid : (last.index "id").as_str = some lid)
    (hdec : decodeAll decode p = .ok ts) :
    (runFrom decode transport path base cursor idx (fuel + 1)).requests =
      requestParams base cursor ::
        (runFrom decode transport path base (some lid) (idx + 1) fuel).requests := by
  rw [runFrom_step_good decode transport path base cursor idx fuel p last lid ts
    htr hlast hid hdec]
  simp [Run.requests, requestedParams, List.filterMap_append, yieldMap_filterMap_requests]

/-- Whatever a run's first request is, it carries the current cursor
state's parameters. -/
theorem run_first_request_aux {T : Type} (decode : Json → Except String T)
    (transport : Transport) (path : String) (base : List (String × String)) :
    ∀ (fuel : Nat) (cursor : Option String) (idx : Nat) (x : List (String × String)),
      (runFrom decode transport path base cursor idx fuel).requests[0]? = some x →
      x = requestParams base cursor := by
  intro fuel
  cases fuel with
  | zero =>
    intro c i x hx
    simp [runFrom, Run.requests] at hx
  | succ f =>
    intro c i x hx
    cases htr : transport i path (requestParams base c) with
    | failure err =>
      rw [runFrom_step_failure decode transport path base c i f err htr] at hx
      simp [Run.requests, requestedParams] at hx
      exact hx.symm
    | success body =>
      cases harr : body.as_array with
      | none =>
        rw [runFrom_step_notArray decode transport path base c i f body htr harr] at hx
        simp [Run.requests, requestedParams] at hx
        exact hx.symm
      | some xs =>
        have hbody := Json.as_array_eq_some body xs harr
        subst hbody
        cases hlast : xs.getLast? with
        | none =>
          rw [List.getLast?_eq_none_iff] at hlast
          subst hlast
          rw [runFrom_step_empty decode transport path base c i f htr] at hx
          simp [Run.requests, requestedParams] at hx
          exact hx.symm
        | some last =>
          cases hid : (last.index "id").as_str with
          | none =>
            rw [runFrom_step_badId decode transport path base c i f xs last htr hlast hid] at hx
            simp [Run.requests, requestedParams] at hx
            exact hx.symm
          | some lid =>
            cases hdec : decodeAll decode xs with
            | error e =>
              rw [runFrom_step_decodeFail decode transport path base c i f xs last lid e
                htr hlast hid hdec] at hx
              simp [Run.requests, requestedParams] at hx
              exact hx.symm
            | ok ts =>
              rw [requests_step_good decode transport path base c i f xs last lid ts
                htr hlast hid hdec] at hx
              rw [List.getElem?_cons_zero] at hx
              exact (Option.some.inj hx).symm

/-- Each request after the first is the base list with `("before", lid)`
appended, where `lid` is the string `id` of the last raw element of the
array served for the immediately preceding request. -/
theorem run_cursor_chain_aux {T : Type} (decode : Json → Except String T)
    (transport : Transport) (path : String) (base : List (String × String)) :
    ∀ (fuel : Nat) (cursor : Option String) (idx i : Nat) (psNext : List (String × String)),
      (runFrom decode transport path base cursor idx fuel).requests[i + 1]? = some psNext →
      ∃ psPrev p last lid,
        (runFrom decode transport path base cursor idx fuel).requests[i]? = some psPrev ∧
        transport (idx + i) path psPrev = .success (.arr p) ∧
        p.getLast? = some last ∧
        (last.index "id").as_str = some lid ∧
        psNext = base ++ [("before", lid)] := by
  intro fuel
  induction fuel with
  | zero =>
    intro c idx i psNext h
    simp [runFrom, Run.requests] at h
  | succ f ih =>
    intro c idx i psNext h
    cases htr : transport idx path (requestParams base c) with
    | failure err =>
      rw [runFrom_step_failure decode transport path base c idx f err htr] at h
      simp [Run.requests, requestedParams] at h
    | success body =>
      cases harr : body.as_array with
      | none =>
        rw [runFrom_step_notArray decode transport path base c idx f body htr harr] at h
        simp [Run.requests, requestedParams] at h
      | some xs =>
        have hbody := Json.as_array_eq_some body xs harr
        subst hbody
        cases hlast : xs.getLast? with
        | none =>
          rw [List.getLast?_eq_none_iff] at hlast
          subst hlast
          rw [runFrom_step_empty decode transport path base c idx f htr] at h
          simp [Run.requests, requestedParams] at h
        | some last =>
          cases hid : (last.index "id").as_str with
          | none =>
            rw [runFrom_step_badId decode transport path base c idx f xs last htr hlast hid] at h
            simp [Run.requests, requestedParams] at h
          | some lid =>
            cases hdec : decodeAll decode xs with
            | error e =>
              rw [runFrom_step_decodeFail decode transport path base c idx f xs last lid e
                htr hlast hid hdec] at h
              simp [Run.requests, requestedParams] at h
            | ok ts =>
              rw [requests_step_good decode transport path base c idx f xs last lid ts
                htr hlast hid hdec] at h ⊢
              cases i with
              | zero =>
                rw [List.getElem?_cons_succ] at h
                have hnext := run_first_request_aux decode transport path base f
                  (some lid) (idx + 1) psNext h
                refine ⟨requestParams base c, xs, last, lid, ?_, ?_, hlast, hid, ?_⟩
                · rw [List.getElem?_cons_zero]
                · rw [Nat.add_zero]
                  exact htr
                · rw [hnext]
                  rfl
              | succ n =>
                rw [List.getElem?_cons_succ] at h
                obtain ⟨psPrev, p, last', lid', hPrev, hTr, hLast, hId, hNext⟩ :=
                  ih (some lid) (idx + 1) n psNext h
                refine ⟨psPrev, p, last', lid', ?_, ?_, hLast, hId, hNext⟩
                · rw [List.getElem?_cons_succ]
                  exact hPrev
                · rw [show idx + (n + 1) = idx + 1 + n by omega]
                  exact hTr

/-- With fuel to make at least one call, the first request carries
exactly the current cursor state's parameters. -/
theorem run_first_request_eq {T : Type} (decode : Json → Except String T)
    (transport : Transport) (path : String) (base : List (String × String)) :
    ∀ (fuel : Nat) (cursor : Option String) (idx : Nat),
      (runFrom decode transport path base cursor idx (fuel + 1)).requests[0]? =
        some (requestParams base cursor) := by
  intro f c i
  cases htr : transport i path (requestParams base c) with
  | failure err =>
    rw [runFrom_step_failure decode transport path base c i f err htr]
    rfl
  | success body =>
    cases hstep : pageStep (T := T) decode body with
    | error err =>
      rw [show runFrom decode transport path base c i (f + 1) =
          ⟨[.request path (requestParams base c), .yield (.error err)], true⟩ by
        simp [runFrom, htr, hstep]]
      rfl
    | ok o =>
      cases o with
      | none =>
        rw [show runFrom decode transport path base c i (f + 1) =
            ⟨[.request path (requestParams base c)], true⟩ by
          simp [runFrom, htr, hstep]]
        rfl
      | some pr =>
        obtain ⟨ts, lid⟩ := pr
        rw [show runFrom decode transport path base c i (f + 1) =
            ⟨.request path (requestParams base c) ::
              (ts.map (fun t => .yield (.ok t)) ++
                (runFrom decode transport path base (some lid) (i + 1) f).events),
             (runFrom decode transport path base (some lid) (i + 1) f).finished⟩ by
          simp [runFrom, htr, hstep]]
        have hreq : (Run.mk
            (Event.request (T := T) path (requestParams base c) ::
              (ts.map (fun t => Event.yield (Except.ok t)) ++
                (runFrom decode transport path base (some lid) (i + 1) f).events))
            (runFrom decode transport path base (some lid) (i + 1) f).finished).requests =
            requestParams base c ::
              (runFrom decode transport path base (some lid) (i + 1) f).requests := by
          simp [Run.requests, requestedParams, List.filterMap_append, yieldMap_filterMap_requests]
        rw [hreq, List.getElem?_cons_zero]

/-- C1: the first page request carries exactly the base parameters and no
cursor pair, and every subsequent request's parameter list is the base
list plus the pair `("before", lid)` where `lid` is, verbatim, the string
value of the `id` field of the last element of the raw JSON array the
transport returned for the immediately preceding request — stated over
the raw array, with no reference to decoding. -/
theorem cursor_propagation {T : Type} (decode : Json → Except String T)
    (transport : Transport) (path : String) (base : List (String × String)) (fuel : Nat) :
    ((stream_paginated decode transport path base (fuel + 1)).requests[0]? = some base) ∧
    (∀ (i : Nat) (psNext : List (String × String)),
      (stream_paginated decode transport path base fuel).requests[i + 1]? = some psNext →
      ∃ psPrev p last lid,
        (stream_paginated decode transport path base fuel).requests[i]? = some psPrev ∧
        transport i path psPrev = .success (.arr p) ∧
        p.getLast? = some last ∧
        (last.index "id").as_str = some lid ∧
        psNext = base ++ [("before", lid)]) := by
  constructor
  · exact run_first_request_eq decode transport path base fuel none 0
  · intro i psNext h
    have := run_cursor_chain_aux decode transport path base fuel none 0 i psNext h
    simpa using this

/-- C9 (amended): the terminal error yielded when a page element fails to
decode is `ParseError e`, where `e` is the decode error produced by the
caller's decoder on the first failing element — the embedded
`serde_json::Error`, a message with no raw value — not the offending raw
JSON element itself.  (`SchemaError` is the constructor that carries raw
JSON values; `ParseError` carries only the decoder's error.) -/
theorem decode_error_payload {T : Type} (decode : Json → Except String T)
    (transport : Transport) (path : String) (base : List (String × String))
    (cursor : Option String) (idx fuel : Nat)
    (good : List Json) (bad : Json) (rest : List Json) (gs : List T) (e : String)
    (last : Json) (lid : String)
    (htr : transport idx path (requestParams base cursor) =
      .success (.arr (good ++ bad :: rest)))
    (hlast : (good ++ bad :: rest).getLast? = some last)
    (hid : (last.index "id").as_str = some lid)
    (hgood : decodeAll decode good = .ok gs)
    (hbad : decode bad = .error e) :
    runFrom decode transport path base cursor idx (fuel + 1) =
      ⟨[.request path (requestParams base cursor),
        .yield (.error (.ParseError e))], true⟩ :=
  runFrom_step_decodeFail decode transport path base cursor idx fuel
    (good ++ bad :: rest) last lid e htr hlast hid
    (decodeAll_append_error decode good gs bad e rest hgood hbad)

/-- Witness for the amended C9: the failing page `[jA, jNoN, jB]` yields
`ParseError "missing n"`, the error `decN` produces on `jNoN`, the first
failing element. -/
theorem decode_error_payload_witness :
    runFrom decN tDecodeFail "/bets" [] none 0 1 =
      ⟨[.request "/bets" [], .yield (.error (.ParseError "missing n"))], true⟩ :=
  decode_error_payload decN tDecodeFail "/bets" [] none 0 0
    [jA] jNoN [jB] [1] "missing n" jB "b" rfl rfl rfl rfl rfl

/-- A raw element with id "x" and no `n` field. -/
def jBadA : Json := .obj [("id", .str "x")]

/-- A different raw element, also with id "x" and no `n` field. -/
def jBadB : Json := .obj [("id", .str "x"), ("z", .bool true)]

/-- A transport serving the page `[jBadA]`. -/
def tRawA : Transport := fun _ _ _ => .success (.arr [jBadA])

/-- A transport serving the page `[jBadB]`. -/
def tRawB : Transport := fun _ _ _ => .success (.arr [jBadB])

/-- Counterexample to C9 as stated: two transports whose pages differ
only in the offending raw element produce streams that are equal in
every observable (the same single `ParseError`, which in the source is a
`serde_json::Error` with no attached `Value`), although the offending
raw elements differ.  Were the terminal decode error to carry the
offending raw JSON value, the two streams would differ; since they are
identical, no caller can inspect which raw element broke the page. -/
theorem decode_error_no_raw_value_counterexample :
    stream_paginated decN tRawA "/bets" [] 1 = stream_paginated decN tRawB "/bets" [] 1 ∧
    jBadA ≠ jBadB ∧
    (stream_paginated decN tRawA "/bets" [] 1).items =
      [.error (.ParseError "missing n")] := by
  refine ⟨rfl, ?_, rfl⟩
  intro h
  have hlen := congrArg (fun j => match j with | Json.obj l => l.length | _ => 0) h
  simp [jBadA, jBadB] at hlen

end ManifoldStream
